import Mathlib

/-!
# Verification of the gomacro `fast` statement compiler (statement.go)

Shallow embedding of `vendor/github.com/cosmos72/gomacro/fast/statement.go`:
the statement dispatcher (`Comp.Stmt`), block/list compilation with the
push/pop-environment optimization, `break`/`continue` resolution,
`return` (including multi-value returns), `defer`, `go`, `for` and `if`
compilation, together with a one-step runtime semantics for the emitted
instructions.

Collaborating code that is not part of the statement compiler (the
expression compiler, the declaration compiler, `NewComp`, `NewEnv`,
reflection-based values) is modelled from the spec; such definitions are
marked `Modelled from the spec:` in their doc comment.
-/

set_option linter.unusedVariables false
set_option linter.unreachableTactic false
set_option linter.unusedTactic false

namespace Gomacro

/-! ## Expressions (collaborator model)

Modelled from the spec: the expression compiler is an external collaborator
producing value-evaluating closures, predicate-evaluating closures and
multi-value call descriptors.  We model an expression syntactically; its
compiled form evaluates over a runtime environment. -/

/-- Runtime values.  Modelled from the spec: the runtime value
representation is a boxed value; the claims only need plain data, so we
use integers. -/
abbrev Value := Int

/-- Result types.  Modelled from the spec: types are opaque to the
statement compiler; it only queries assignability. -/
abbrev Ty := Nat

/-- Modelled from the spec: Go assignability, abstracted to a decidable
relation on opaque types; identical types are assignable. -/
def Ty.assignableTo (tactual texpected : Ty) : Bool := tactual == texpected

/-- Expression syntax, as far as the statement compiler observes it:
compile-time constants, runtime predicates, variable reads, multi-value
calls, and ill-formed expressions (which fail to compile). -/
inductive Expr where
  /-- a compile-time constant boolean -/
  | constBool (b : Bool)
  /-- a compile-time constant integer -/
  | constInt (n : Int)
  /-- a runtime boolean predicate reading slot `i` of the current env -/
  | dynPred (i : Nat)
  /-- read slot `i` of the current environment (a settable variable) -/
  | readSlot (i : Nat)
  /-- read slot `i` of the environment `upn` hops out (a variable compiled
  at non-zero up-cost) -/
  | readSlotUp (upn : Nat) (i : Nat)
  /-- a call producing `outs.length` values, the `i`-th of type `outs[i]`
  and read (at run time) from environment slot `srcSlots[i]` -/
  | multiCall (outs : List Ty) (srcSlots : List Nat)
  /-- an expression that fails to compile -/
  | badExpr
  /-- a well-formed expression that is not a boolean predicate -/
  | notBool
deriving Repr, DecidableEq

/-- `Expr.Const()`: constants are the compile-time constant literals. -/
def Expr.isConst : Expr → Bool
  | .constBool _ => true
  | .constInt _ => true
  | _ => false

/-- Modelled from the spec: an expression the expression compiler
rejects. -/
def Expr.isBad : Expr → Bool
  | .badExpr => true
  | _ => false

/-! ## Statement syntax

The `go/ast` statement kinds handled by `Comp.Stmt`, restricted to the
shapes the claims exercise.  `nilStmt` is the nil `ast.Stmt` interface
value; `unknown` stands for any statement kind not recognized by the
dispatcher. -/

inductive AssignTok where
  | define  -- token.DEFINE, `:=`
  | assignT -- token.ASSIGN, `=`
deriving Repr, DecidableEq

inductive BranchTok where
  | breakT | continueT | fallthroughT | gotoT
deriving Repr, DecidableEq

mutual
inductive Stm where
  /-- the nil `ast.Stmt` interface value -/
  | nilStmt
  /-- `*ast.EmptyStmt` -/
  | empty
  /-- `*ast.AssignStmt` (`:=` or `=`) -/
  | assign (tok : AssignTok) (names : List String) (rhs : List Expr)
  /-- `*ast.BlockStmt` -/
  | block (body : StmList)
  /-- `*ast.BranchStmt` -/
  | branch (tok : BranchTok) (label : Option String)
  /-- `*ast.DeclStmt` holding a const/type `*ast.GenDecl` (compile-time only) -/
  | declConst (name : String)
  /-- `*ast.DeclStmt` holding a var `*ast.GenDecl` -/
  | declVar (names : List String)
  /-- `*ast.DeclStmt` holding a local `*ast.FuncDecl` -/
  | declFunc (name : String)
  /-- `*ast.DeferStmt` -/
  | deferS (f : Expr) (args : List Expr) (ellipsis : Bool)
  /-- `*ast.ExprStmt` -/
  | exprS (e : Expr)
  /-- `*ast.ForStmt`; `ini`/`post` are `nilStmt` when absent, `cond` is
  `none` when absent, `body` is the loop body block's statement list -/
  | forS (ini : Stm) (cond : Option Expr) (post : Stm) (body : StmList)
  /-- `*ast.GoStmt` -/
  | goS (f : Expr) (args : List Expr)
  /-- `*ast.IfStmt`; `ini`/`els` are `nilStmt` when absent -/
  | ifS (ini : Stm) (cond : Expr) (thenBody : StmList) (els : Stm)
  /-- `*ast.LabeledStmt` -/
  | labeled (label : String) (stm : Stm)
  /-- `*ast.ReturnStmt` -/
  | retS (results : List Expr)
  /-- any statement kind not recognized by the dispatcher -/
  | unknown (kind : String)

inductive StmList where
  | nil
  | cons (s : Stm) (rest : StmList)
end

/-- Length of a statement list. -/
def StmList.length : StmList → Nat
  | .nil => 0
  | .cons _ rest => rest.length + 1

/-- Whether this statement is the nil `ast.Stmt` (`node == nil`). -/
def Stm.isNil : Stm → Bool
  | .nilStmt => true
  | _ => false

/-- Whether this statement list is empty. -/
def StmList.isNil : StmList → Bool
  | .nil => true
  | _ => false

/-! ## Instructions and the compile-time state

An instruction in the source is a closure `func(*Env) (Stmt, *Env)`.
We represent each closure shape `statement.go` constructs as a
constructor.  Unresolved jump targets (`*int` in the source, filled in by
back-patching) are modelled as indices ("cells") into a cell store held in
the compile-time state; every cell is written before compilation of the
enclosing construct finishes. -/

inductive Instr where
  /-- the closure appended by `pushEnvIfFlag`: allocates a child `Env`
  whose sizes are read (at run time) from cells `nbinds`/`nbinds+1` -/
  | pushEnv (nbinds : Nat)
  /-- `popEnv`: return to the outer environment -/
  | popEnv
  /-- `jumpOut`: exit `upn` environments, jump to the IP in cell `target` -/
  | jumpOut (upn : Nat) (target : Nat)
  /-- the `for` condition closure: predicate true falls through to IP+1,
  false jumps to the IP in cell `breakCell` -/
  | condJumpFor (pred : Nat) (breakCell : Nat)
  /-- the `if` condition closure: jump to cell `thenCell` or `elseCell` -/
  | condJumpIf (pred : Nat) (thenCell : Nat) (elseCell : Nat)
  /-- the unconditional jump back to the `for` condition (target known at
  construction time) -/
  | jumpConst (ip : Nat)
  /-- the jump between a `then` and an `else` branch, to cell `endCell` -/
  | gotoEnd (endCell : Nat)
  /-- an expression statement (`expr.AsStmt()`) -/
  | exprStmt (e : Expr)
  /-- an opaque assignment/declaration instruction.  Modelled from the
  spec: the assignment and declaration compilers emit value-moving
  instructions whose details are outside the statement compiler. -/
  | assignStmt
  /-- `SetVar` of a return expression into result bind `slot`, `upn`
  environments up -/
  | setVar (upn : Nat) (slot : Nat) (e : Expr)
  /-- `stmtReturn`: set the return signal and transfer to the interrupt -/
  | returnSignal
  /-- the single closure appended by `returnMultiValues`: evaluate the
  call, assign every produced value into the result binds at `upn`, then
  signal return -/
  | returnMulti (call : Expr) (upn : Nat) (slots : List Nat)
  /-- the closure appended by `Comp.Defer` -/
  | deferInstr (f : Expr) (args : List Expr) (ellipsis : Bool)
  /-- the closure appended by `Comp.Go` -/
  | goInstr (f : Expr) (args : List Expr)
deriving Repr, DecidableEq

/-- The shared compile-time mutable state: the instruction stream
(`Comp.Code.List`), the store of patchable jump-target/bind-count cells,
and the `WithDefers` flag of the compiled code unit. -/
structure CompState where
  code : List Instr := []
  cells : List Nat := []
  withDefers : Bool := false
deriving Repr, DecidableEq

/-- Append one instruction (`Comp.append` / `Comp.Append`; source
positions are not modelled). -/
def CompState.append (s : CompState) (i : Instr) : CompState :=
  { s with code := s.code ++ [i] }

/-- Allocate a fresh cell initialized to 0, returning its index. -/
def CompState.allocCell (s : CompState) : Nat × CompState :=
  (s.cells.length, { s with cells := s.cells ++ [0] })

/-- Write a cell (back-patching a jump target / bind count). -/
def CompState.setCell (s : CompState) (i v : Nat) : CompState :=
  { s with cells := s.cells.set i v }

/-- Read a cell. -/
def CompState.cell (s : CompState) (i : Nat) : Nat :=
  s.cells.getD i 0

/-! ## Compile-time frames (`*Comp`)

A `*Comp` chain is a list of frames, innermost first; the empty list is
the nil outer pointer at the root. -/

/-- A result binding of the enclosing function (`*Bind` in the source):
its declared type and the slot it occupies in the function's
environment. -/
structure Bind where
  ty : Ty
  slot : Nat
deriving Repr, DecidableEq

/-- `FuncInfo`: present only on function-root frames. -/
structure FuncInfo where
  results : List Bind
  namedResults : Bool
deriving Repr, DecidableEq

/-- `LoopInfo`: break/continue jump-target cells (absent when the
construct does not support that branch kind) and the labels attached to
this loop. -/
structure LoopInfo where
  breakCell : Option Nat := none
  continueCell : Option Nat := none
  thisLabels : List String := []
deriving Repr, DecidableEq

/-- One compile-time frame of the `*Comp` chain. -/
structure Frame where
  func : Option FuncInfo := none
  loop : Option LoopInfo := none
  upCost : Nat := 1
  depth : Nat := 0
  bindNum : Nat := 0
  intBindNum : Nat := 0
  /-- names of compile-time-only declarations (consts/types) recorded in
  this frame.  Modelled from the spec: constant and type declarations
  live only in the compile-time frame and emit no instructions. -/
  cdecls : List String := []
deriving Repr, DecidableEq

/-- A `*Comp` chain, innermost frame first; `[]` is the nil pointer. -/
abbrev Comp := List Frame

/-- Depth of the innermost frame (0 for an empty chain). -/
def Comp.headDepth (c : Comp) : Nat :=
  match c with
  | [] => 0
  | f :: _ => f.depth

/-- Modelled from the spec: `NewComp(c, &c.Code)` creates a child
compile-time frame with up-cost 1 and depth one greater than its
parent's. -/
def newComp (c : Comp) : Comp :=
  { upCost := 1, depth := c.headDepth + 1 } :: c

/-- Bump the innermost frame's object-bind count. -/
def Comp.addBinds (c : Comp) (n : Nat) : Comp :=
  match c with
  | [] => []
  | f :: rest => { f with bindNum := f.bindNum + n } :: rest

/-- Record a compile-time-only declaration in the innermost frame. -/
def Comp.addCDecl (c : Comp) (name : String) : Comp :=
  match c with
  | [] => []
  | f :: rest => { f with cdecls := f.cdecls ++ [name] } :: rest

/-- Install a `LoopInfo` on the innermost frame (`c.Loop = &LoopInfo{...}`). -/
def Comp.setLoop (c : Comp) (li : LoopInfo) : Comp :=
  match c with
  | [] => []
  | f :: rest => { f with loop := some li } :: rest

/-! ## The static pre-scan (`containLocalBinds`) -/

/-- Whether a single direct statement declares a local bind, exactly as
`containLocalBinds` examines it: any `:=` assignment; a local function
declaration with a non-blank name; a var declaration with at least one
non-blank name.  Nested blocks are not examined; const/type declarations,
nil statements and everything else do not count. -/
def containLocalBind1 : Stm → Bool
  | .assign tok _ _ => tok == .define
  | .declFunc name => name != "_"
  | .declVar names => names.any (· != "_")
  | _ => false

/-- `containLocalBinds` over a statement list.  (The source raises an
internal error on an empty list; every caller checks emptiness first, so
the nil case is unreachable there and we return `false`.) -/
def containLocalBinds : StmList → Bool
  | .nil => false
  | .cons s rest => containLocalBind1 s || containLocalBinds rest

/-! ## Environment push/pop helpers -/

/-- `pushEnvIfFlag`: if `flag`, append a push-environment instruction
whose bind counts will be patched into two fresh cells (the `nbinds`
array the source shares with the closure); always create a child
compile-time frame, with up-cost 0 and unchanged depth when no
environment is pushed.  Returns the inner `*Comp`, the new state and the
index of the bind-count cell pair. -/
def pushEnvIfFlag (c : Comp) (s : CompState) (flag : Bool) :
    Comp × CompState × Nat :=
  let cellId := s.cells.length
  let s := { s with cells := s.cells ++ [0, 0] }
  let s := if flag then s.append (.pushEnv cellId) else s
  let inner : Frame :=
    { upCost := if flag then 1 else 0
      depth := c.headDepth + (if flag then 1 else 0) }
  (inner :: c, s, cellId)

/-- The common core of `popEnvIfLocalBinds`/`popEnvIfFlag`: copy the
discovered bind counts into the shared cells, check them against the
static pre-scan (an internal-consistency error otherwise), and append a
pop-environment instruction when one was pushed.  Returns the outer
`*Comp`. -/
def popEnvIfFlagCore (inner : Comp) (s : CompState) (flag : Bool)
    (cellId : Nat) : Except String (Comp × CompState) :=
  match inner with
  | [] => .error "internal error: popEnv on root Comp"
  | f :: outer =>
    let s := (s.setCell cellId f.bindNum).setCell (cellId + 1) f.intBindNum
    if flag ≠ (f.bindNum ≠ 0 || f.intBindNum ≠ 0) then
      .error "internal error: containLocalBinds mismatch"
    else if flag then
      .ok (outer, s.append .popEnv)
    else
      .ok (outer, s)

/-! ## Break / continue resolution (`Comp.Break`, `Comp.Continue`) -/

/-- The outward walk of `Comp.Break`: starting at the current frame, stop
at (without crossing) a function-root frame; at each frame owning a
`LoopInfo` with a break target, match the label; otherwise accumulate the
frame's up-cost and continue outward.  Returns the accumulated up-cost
and the break-target cell on success. -/
def breakSearch (label : String) : Comp → Nat → Option (Nat × Nat)
  | [], _ => none
  | f :: rest, upn =>
    if f.func.isSome then none
    else
      match f.loop with
      | some li =>
        match li.breakCell with
        | some cell =>
          if label = "" || li.thisLabels.contains label then some (upn, cell)
          else breakSearch label rest (upn + f.upCost)
        | none => breakSearch label rest (upn + f.upCost)
      | none => breakSearch label rest (upn + f.upCost)

/-- The outward walk of `Comp.Continue` (same shape, continue target). -/
def continueSearch (label : String) : Comp → Nat → Option (Nat × Nat)
  | [], _ => none
  | f :: rest, upn =>
    if f.func.isSome then none
    else
      match f.loop with
      | some li =>
        match li.continueCell with
        | some cell =>
          if label = "" || li.thisLabels.contains label then some (upn, cell)
          else continueSearch label rest (upn + f.upCost)
        | none => continueSearch label rest (upn + f.upCost)
      | none => continueSearch label rest (upn + f.upCost)

/-- `Comp.Break`: emit a `jumpOut` to the nearest matching loop's break
cell, or fail. -/
def compileBreak (c : Comp) (s : CompState) (label : Option String) :
    Except String CompState :=
  let lbl := label.getD ""
  match breakSearch lbl c 0 with
  | some (upn, cell) => .ok (s.append (.jumpOut upn cell))
  | none =>
    if lbl ≠ "" then .error ("break label not defined: " ++ lbl)
    else .error "break outside for/switch"

/-- `Comp.Continue`: emit a `jumpOut` to the nearest matching loop's
continue cell, or fail. -/
def compileContinue (c : Comp) (s : CompState) (label : Option String) :
    Except String CompState :=
  let lbl := label.getD ""
  match continueSearch lbl c 0 with
  | some (upn, cell) => .ok (s.append (.jumpOut upn cell))
  | none =>
    if lbl ≠ "" then .error ("continue label not defined: " ++ lbl)
    else .error "continue outside for"

/-! ## Return compilation (`Comp.Return`, `Comp.returnMultiValues`) -/

/-- The function-root search of `Comp.Return`: walk outward accumulating
up-cost until a frame carrying a `FuncInfo` is found. -/
def funcSearch : Comp → Nat → Option (FuncInfo × Nat)
  | [], _ => none
  | f :: rest, upn =>
    match f.func with
    | some fi => some (fi, upn)
    | none => funcSearch rest (upn + f.upCost)

/-- `Comp.returnMultiValues`: compile `return f()` where `f()` must
produce one value per result bind; type-check each produced value for
assignability and append the single combined
evaluate-assign-signal instruction. -/
def returnMultiValues (c : Comp) (s : CompState) (resultBinds : List Bind)
    (upn : Nat) (exprs : List Expr) : Except String (Comp × CompState) :=
  let n := resultBinds.length
  match exprs with
  | [e] =>
    if e.isBad then .error "invalid expression" else
    match e with
    | .multiCall outs comps =>
      -- Modelled from the spec: `ExprsMultipleValues` checks the single
      -- expression produces exactly `n` values.
      if outs.length ≠ n then
        .error ("expression returns " ++ toString outs.length ++
          " values, expected " ++ toString n)
      else
        match (resultBinds.zip outs).find?
            (fun bt => ! Ty.assignableTo bt.2 bt.1.ty) with
        | some bt =>
          .error ("incompatible types in assignment: " ++ toString bt.1.ty ++
            " = " ++ toString bt.2)
        | none =>
          .ok (c, s.append (.returnMulti e upn (resultBinds.map (·.slot))))
    | _ => .error "expression does not return multiple values"
  | _ => .error "internal error: returnMultiValues needs a single expression"

/-- `Comp.Return`: locate the enclosing function, then dispatch on the
expression count exactly as the source's `switch` does (the `case n`
branch is tested first). -/
def compileReturn (c : Comp) (s : CompState) (resultExprs : List Expr) :
    Except String (Comp × CompState) :=
  match funcSearch c 0 with
  | none => .error "return outside function"
  | some (cinfo, upn) =>
    let resultBinds := cinfo.results
    let n := resultBinds.length
    if resultExprs.length = n then
      -- `exprs := c.Exprs(resultExprs)` (expression compiler, modelled
      -- from the spec: an ill-formed expression fails compilation)
      if resultExprs.any (·.isBad) then .error "invalid expression" else
      let s := (resultBinds.zip resultExprs).foldl
        (fun s be => s.append (.setVar upn be.1.slot be.2)) s
      .ok (c, s.append .returnSignal)
    else if resultExprs.length = 1 then
      if n = 0 then
        .error ("return: expecting " ++ toString n ++
          " expressions, found 1")
      else returnMultiValues c s resultBinds upn resultExprs
    else if resultExprs.length = 0 then
      if ¬ cinfo.namedResults then
        .error ("return: expecting " ++ toString n ++
          " expressions, found 0")
      else
        -- naked return: the results already live in their binds; no
        -- assignment instructions, only the return signal
        .ok (c, s.append .returnSignal)
    else
      .error ("return: expecting " ++ toString n ++
        " expressions, found " ++ toString resultExprs.length)

/-! ## Defer and go compilation -/

/-- `Comp.Defer`: `prepareCall` compiles the callee and arguments
(modelled from the spec: ill-formed expressions fail), then one closure
is appended and the code unit is marked as having defers. -/
def compileDefer (c : Comp) (s : CompState) (f : Expr) (args : List Expr)
    (ellipsis : Bool) : Except String (Comp × CompState) :=
  if f.isBad || args.any (·.isBad) then .error "invalid expression" else
  let s := s.append (.deferInstr f args ellipsis)
  .ok (c, { s with withDefers := true })

/-- `Comp.Go`: the call is compiled in a synthetic child scope
(`NewComp`), one closure is appended, and the accumulated code is
propagated back to the parent frame (automatic here, as the stream is
threaded through the state). -/
def compileGo (c : Comp) (s : CompState) (f : Expr) (args : List Expr) :
    Except String (Comp × CompState) :=
  let c2 := newComp c
  if f.isBad || args.any (·.isBad) then .error "invalid expression" else
  .ok (c, s.append (.goInstr f args))

/-! ## Assignment and declarations (collaborator models) -/

/-- Modelled from the spec: the assignment compiler.  A `:=` assignment
declares its non-blank left-hand names in the current frame; both forms
emit value-moving instructions, collapsed here to one opaque
instruction. -/
def compileAssign (c : Comp) (s : CompState) (tok : AssignTok)
    (names : List String) (rhs : List Expr) :
    Except String (Comp × CompState) :=
  if rhs.any (·.isBad) then .error "invalid expression" else
  let c := if tok = .define then
    c.addBinds (names.filter (· ≠ "_")).length else c
  .ok (c, s.append .assignStmt)

/-- Modelled from the spec: the declaration compiler for local `var`
declarations; non-blank names become binds of the current frame. -/
def compileDeclVar (c : Comp) (s : CompState) (names : List String) :
    Except String (Comp × CompState) :=
  .ok (c.addBinds (names.filter (· ≠ "_")).length, s.append .assignStmt)

/-- Modelled from the spec: the declaration compiler for local function
declarations; a non-blank name becomes a bind of the current frame. -/
def compileDeclFunc (c : Comp) (s : CompState) (name : String) :
    Except String (Comp × CompState) :=
  .ok (c.addBinds (if name ≠ "_" then 1 else 0), s.append .assignStmt)

/-- Modelled from the spec: const/type declarations are compile-time
only — they are recorded in the current compile-time frame and emit no
instructions. -/
def compileDeclConst (c : Comp) (s : CompState) (name : String) :
    Except String (Comp × CompState) :=
  .ok (c.addCDecl name, s)

/-- `TryAsPred` on a compiled condition: a constant boolean yields a
compile-time flag, a runtime predicate yields a closure, anything else is
not a predicate (`invalidPred`, a fatal compile error).  Modelled from
the spec: the predicate contract of the expression compiler. -/
def tryAsPred (e : Expr) : Except String (Bool × Option Nat) :=
  if e.isBad then .error "invalid expression" else
  match e with
  | .constBool b => .ok (b, none)
  | .dynPred i => .ok (false, some i)
  | _ => .error "invalid condition: not a boolean"

/-! ## The statement compiler (mutual recursion)

`compileStmt` is `Comp.Stmt` (the dispatcher), `compileListC` is
`Comp.List`, `compileBlockL` is `Comp.Block` applied to a block's
statement list, `compileFor` is `Comp.For`, `compileIf` is `Comp.If`.
All of them thread the `*Comp` chain and the shared compile state and
fail with the source's fatal compile errors (`Errorf` aborts
compilation, modelled with `Except`). -/

theorem stmSizeOf_pos (st : Stm) : 0 < sizeOf st := by
  cases st <;> simp_arith

theorem stmListSizeOf_pos (l : StmList) : 0 < sizeOf l := by
  cases l <;> simp_arith

mutual

/-- `Comp.Stmt`: dispatch one statement node.  The `labels` accumulator
carries the labels attached by enclosing `*ast.LabeledStmt` nodes. -/
def compileStmt (labels : List String) (c : Comp) (s : CompState) :
    Stm → Except String (Comp × CompState)
  | .nilStmt => .ok (c, s)
  | .empty => .ok (c, s)
  | .assign tok names rhs => compileAssign c s tok names rhs
  | .block l => compileBlockL c s l
  | .branch tok lab =>
    match tok with
    | .breakT => do
      let s' ← compileBreak c s lab
      .ok (c, s')
    | .continueT => do
      let s' ← compileContinue c s lab
      .ok (c, s')
    | .fallthroughT => .error "misplaced fallthrough: not inside switch"
    | .gotoT => .error "unimplemented branch statement"
  | .declConst n => compileDeclConst c s n
  | .declVar ns => compileDeclVar c s ns
  | .declFunc n => compileDeclFunc c s n
  | .deferS f args ell => compileDefer c s f args ell
  | .exprS e =>
    -- constant expressions are compiled but not appended
    if e.isBad then .error "invalid expression"
    else if e.isConst then .ok (c, s)
    else .ok (c, s.append (.exprStmt e))
  | .forS ini cond post body => compileFor labels c s ini cond post body
  | .goS f args => compileGo c s f args
  | .ifS ini cond thenBody els => compileIf c s ini cond thenBody els
  | .labeled l st => compileStmt (labels ++ [l]) c s st
  | .retS exprs => compileReturn c s exprs
  | .unknown k => .error ("unimplemented statement: " ++ k)
termination_by st => 4 * sizeOf st
decreasing_by
  all_goals simp_wf
  all_goals omega

/-- The statement loop inside `Comp.List`: compile each statement of the
list in order into the (possibly child) frame. -/
def compileStmtList (c : Comp) (s : CompState) :
    StmList → Except String (Comp × CompState)
  | .nil => .ok (c, s)
  | .cons a rest => do
    let (c1, s1) ← compileStmt [] c s a
    compileStmtList c1 s1 rest
termination_by l => 4 * sizeOf l
decreasing_by
  all_goals simp_wf
  all_goals omega

/-- `Comp.List`: push an environment if the static pre-scan finds local
binds, compile the statements, pop the environment if one was pushed
(with the internal-consistency check). -/
def compileListC (c : Comp) (s : CompState) :
    StmList → Except String (Comp × CompState)
  | .nil => .error "List invoked on empty statement list"
  | .cons a rest =>
    let flag := containLocalBinds (.cons a rest)
    let (c2, s2, cellId) := pushEnvIfFlag c s flag
    do
      let (c3, s3) ← compileStmt [] c2 s2 a
      let (c4, s4) ← compileStmtList c3 s3 rest
      popEnvIfFlagCore c4 s4 flag cellId
termination_by l => 4 * sizeOf l + 1
decreasing_by
  all_goals simp_wf
  all_goals omega

/-- `Comp.Block`: an empty (or nil) block compiles to nothing, otherwise
compile its list. -/
def compileBlockL (c : Comp) (s : CompState) (l : StmList) :
    Except String (Comp × CompState) :=
  match l with
  | .nil => .ok (c, s)
  | .cons a rest => compileListC c s (.cons a rest)
termination_by 4 * sizeOf l + 2
decreasing_by
  all_goals simp_wf
  all_goals omega

/-- `Comp.For`.  `ini`/`post` are `nilStmt` when absent; a nil condition
means `for { }`, i.e. constant true.  The `jump` record's `Post` and
`Break` fields are patched after the loop body is compiled, so they are
cells; `Cond` is known before any closure reads it, so it is a plain
value.  (The source sorts the label list for binary search; membership is
unaffected, so the list is kept as-is here.) -/
def compileFor (labels : List String) (c : Comp) (s : CompState)
    (ini : Stm) (cond : Option Expr) (post : Stm) (body : StmList) :
    Except String (Comp × CompState) := do
  let iniFlag := containLocalBind1 ini
  let (cA, sA, iniCell) := pushEnvIfFlag c s iniFlag
  let (cB, sB) ←
    if ini.isNil then pure (cA, sA) else compileStmt [] cA sA ini
  let (flag, predOpt) ←
    match cond with
    | none => pure (true, none)  -- "for { }" means "for true { }"
    | some e => tryAsPred e
  let (postCell, sC) := sB.allocCell
  let (breakCell, sD) := sC.allocCell
  let cC := cB.setLoop
    { breakCell := some breakCell
      continueCell := some postCell
      thisLabels := labels }
  let jumpCond := sD.code.length
  let sE :=
    match predOpt with
    | some p => sD.append (.condJumpFor p breakCell)
    | none => sD
  let (cD, sF) ← compileBlockL cC sE body
  let (cE, sG) ←
    if post.isNil then
      pure (cD, sF.setCell postCell jumpCond)
    else
      let sG0 := sF.setCell postCell sF.code.length
      if containLocalBind1 post then
        .error "invalid for: cannot declare new variables in post statement"
      else compileStmt [] cD sG0 post
  let sH := sG.append (.jumpConst jumpCond)
  -- "for false { }": body, post and jump back are never executed;
  -- compiled above (to check for errors) but the generated code is dropped
  let sI :=
    if predOpt.isNone && flag = false then
      { sH with code := sH.code.take jumpCond }
    else sH
  let sJ := sI.setCell breakCell sI.code.length
  popEnvIfFlagCore cE sJ iniFlag iniCell
termination_by 4 * (sizeOf ini + sizeOf post + sizeOf body) + 3
decreasing_by
  all_goals simp_wf
  all_goals omega

/-- `Comp.If`.  `ini` and `els` are `nilStmt` when absent.  The `jump`
record's `Then`/`Else`/`End` fields are read at run time by the emitted
closures and patched during compilation, so all three are cells. -/
def compileIf (c : Comp) (s : CompState) (ini : Stm) (cond : Expr)
    (thenBody : StmList) (els : Stm) :
    Except String (Comp × CompState) := do
  let (thenCell, s0) := s.allocCell
  let (elseCell, s1) := s0.allocCell
  let (endCell, s2) := s1.allocCell
  let iniFlag := containLocalBind1 ini
  let (cA, sA, iniCell) := pushEnvIfFlag c s2 iniFlag
  let (cB, sB) ←
    if ini.isNil then pure (cA, sA) else compileStmt [] cA sA ini
  let (flag, predOpt) ← tryAsPred cond
  let sC :=
    match predOpt with
    | some p => sB.append (.condJumpIf p thenCell elseCell)
    | none => sB
  -- compile 'then' branch
  let thenIP := sC.code.length
  let sD := sC.setCell thenCell thenIP
  let (cC, sE) ← compileBlockL cB sD thenBody
  -- constant-false condition: 'then' is never executed; compiled above
  -- (to check for errors) but the generated code is dropped
  let sF :=
    if predOpt.isNone && flag = false then
      { sE with code := sE.code.take thenIP }
    else sE
  -- the 'goto' between 'then' and 'else'
  let sG :=
    if predOpt.isSome && ¬ els.isNil then sF.append (.gotoEnd endCell)
    else sF
  -- compile 'else' branch
  let elseIP := sG.code.length
  let sH := sG.setCell elseCell elseIP
  let (cD, sI) ←
    if els.isNil then pure (cC, sH)
    else do
      let (cD, sI0) ← compileElse cC sH els
      -- constant-true condition: 'else' is never executed; compiled
      -- above (to check for errors) but the generated code is dropped
      let sI1 :=
        if predOpt.isNone && flag then
          { sI0 with code := sI0.code.take elseIP }
        else sI0
      pure (cD, sI1)
  let sJ := sI.setCell endCell sI.code.length
  popEnvIfFlagCore cD sJ iniFlag iniCell
termination_by 4 * (sizeOf ini + sizeOf thenBody + sizeOf els) + 3
decreasing_by
  all_goals simp_wf
  all_goals try omega
  all_goals
    (have h1 := stmSizeOf_pos ini
     have h2 := stmListSizeOf_pos thenBody
     omega)

/-- The `c.Stmt(node.Else)` dispatch of `Comp.If` for a present `else`
branch: a block and a chained `else if` go to their compilers directly,
anything else is wrapped in a synthetic single-statement block. -/
def compileElse (c : Comp) (s : CompState) (els : Stm) :
    Except String (Comp × CompState) :=
  match els with
  | .block l => compileBlockL c s l  -- c.Stmt on a block
  | .ifS i2 c2 t2 e2 => compileIf c s i2 c2 t2 e2  -- c.Stmt on an if
  | e => compileListC c s (.cons e .nil)
termination_by 4 * sizeOf els + 10
decreasing_by
  all_goals simp_wf
  all_goals omega

end
/-! ## Runtime semantics

One execution step of each instruction shape, over a runtime environment
tree (`*Env`) and the per-thread shared state (`*ThreadGlobals`). -/

/-- The per-thread signal (`SigNone`, `SigReturn`, `SigDefer`; panic is
not emitted by this file's compilers). -/
inductive Signal where
  | none | sigReturn | sigDefer
deriving Repr, DecidableEq

/-- The deferred call installed by a defer instruction
(`g.InstallDefer`): the already-evaluated function value and argument
values, and whether the call is a spread (`CallSlice`) call. -/
structure PendingCall where
  funv : Value
  argv : List Value
  spread : Bool
deriving Repr, DecidableEq

/-- `*ThreadGlobals`: per-thread signal state, interrupt target, pending
deferred call, shared scope references, and the reusable-environment
pool (modelled by its size). -/
structure ThreadGlobals where
  signal : Signal := .none
  interrupt : Option Nat := none
  installDefer : Option PendingCall := none
  fileEnv : Nat
  topEnv : Nat
  globalsTable : Nat
  poolSize : Nat := 0
deriving Repr, DecidableEq

/-- A spawned concurrent task (`go funv.Call(argv)`): the function and
argument values evaluated by the launcher, and the fresh
`ThreadGlobals` created for the task. -/
structure Task where
  funv : Value
  argv : List Value
  tg : ThreadGlobals
deriving Repr, DecidableEq

/-- A runtime environment (`*Env`): local binding slots, the instruction
pointer, and the enclosing environment.  (The parallel `IntBinds` array
is not modelled separately; a claim never distinguishes the two.) -/
inductive Env where
  | mk (slots : List Value) (ip : Nat) (outer : Option Env)
deriving Repr

def Env.slots : Env → List Value
  | .mk sl _ _ => sl

def Env.ip : Env → Nat
  | .mk _ i _ => i

def Env.outer : Env → Option Env
  | .mk _ _ o => o

/-- Read binding slot `i` of this environment. -/
def Env.slot (env : Env) (i : Nat) : Value :=
  env.slots.getD i 0

/-- Replace the instruction pointer. -/
def Env.withIp (env : Env) (n : Nat) : Env :=
  match env with
  | .mk sl _ o => .mk sl n o

/-- Follow `outer` `upn` times (`env.Outer...`). -/
def Env.up : Env → Nat → Env
  | env, 0 => env
  | env, n + 1 =>
    match env.outer with
    | some o => o.up n
    | none => env

/-- Set slot `idx` of the environment `upn` hops out. -/
def Env.setSlotAt : Env → Nat → Nat → Value → Env
  | .mk sl i o, 0, idx, v => .mk (sl.set idx v) i o
  | .mk sl i o, n + 1, idx, v =>
    match o with
    | some out => .mk sl i (some (out.setSlotAt n idx v))
    | none => .mk sl i none

/-- Evaluation of a compiled single-value expression closure.  Modelled
from the spec: the expression compiler's value closures read the runtime
environment. -/
def evalExpr : Expr → Env → Value
  | .constBool b, _ => if b then 1 else 0
  | .constInt n, _ => n
  | .dynPred i, env => env.slot i
  | .readSlot i, env => env.slot i
  | .readSlotUp u i, env => (env.up u).slot i
  | .multiCall _ _, _ => 0
  | .badExpr, _ => 0
  | .notBool, _ => 0

/-- Evaluation of a compiled predicate closure. -/
def evalPred (p : Nat) (env : Env) : Bool :=
  env.slot p ≠ 0

/-- Evaluation of a multi-value call: all produced values, read from the
environment at call time. -/
def evalMultiOf : Expr → Env → List Value
  | .multiCall _ srcSlots, env => srcSlots.map env.slot
  | _, _ => []

/-- The outcome of one instruction step: fall through / jump to the next
instruction (possibly spawning a task), or transfer to the thread's
interrupt instruction. -/
inductive ExecOut where
  | next (env : Env) (tg : ThreadGlobals) (spawned : Option Task)
  | toInterrupt (env : Env) (tg : ThreadGlobals)
deriving Repr

/-- One execution step of an instruction, with the final cell store
`cells` resolving patched jump targets and bind counts. -/
def execInstr (cells : List Nat) : Instr → Env → ThreadGlobals → ExecOut
  | .pushEnv nb, env, tg =>
    -- NewEnv(env, nbinds[0], nbinds[1]); inner.IP = env.IP + 1
    .next (.mk (List.replicate (cells.getD nb 0) 0) (env.ip + 1) (some env)) tg none
  | .popEnv, env, tg =>
    -- outer.IP = env.IP + 1; env.FreeEnv()
    (match env.outer with
     | some o => .next (o.withIp (env.ip + 1)) tg none
     | none => .next env tg none)
  | .jumpOut upn target, env, tg =>
    .next ((env.up upn).withIp (cells.getD target 0)) tg none
  | .condJumpFor p breakCell, env, tg =>
    .next (env.withIp (if evalPred p env then env.ip + 1 else cells.getD breakCell 0)) tg none
  | .condJumpIf p thenCell elseCell, env, tg =>
    .next (env.withIp (cells.getD (if evalPred p env then thenCell else elseCell) 0)) tg none
  | .jumpConst ip, env, tg =>
    .next (env.withIp ip) tg none
  | .gotoEnd endCell, env, tg =>
    .next (env.withIp (cells.getD endCell 0)) tg none
  | .exprStmt _, env, tg =>
    .next (env.withIp (env.ip + 1)) tg none
  | .assignStmt, env, tg =>
    .next (env.withIp (env.ip + 1)) tg none
  | .setVar upn slot e, env, tg =>
    .next ((env.setSlotAt upn slot (evalExpr e env)).withIp (env.ip + 1)) tg none
  | .returnSignal, env, tg =>
    .toInterrupt env { tg with signal := .sigReturn }
  | .returnMulti call upn slots, env, tg =>
    -- evaluate the call first, then perform all assignments, then signal
    let vals := evalMultiOf call env
    let env2 := (slots.zip vals).foldl
      (fun e sv => e.setSlotAt upn sv.1 sv.2) env
    .toInterrupt env2 { tg with signal := .sigReturn }
  | .deferInstr f args ell, env, tg =>
    -- arguments of a defer call are evaluated (and copied) immediately
    .toInterrupt (env.withIp (env.ip + 1))
      { tg with
        installDefer := some
          { funv := evalExpr f env
            argv := args.map (fun a => evalExpr a env)
            spread := ell }
        signal := .sigDefer }
  | .goInstr f args, env, tg =>
    -- env2 := NewEnv4Func(env, 0, 0) with a brand-new ThreadGlobals
    -- sharing only FileEnv, TopEnv and Globals with the launcher
    let env2 : Env := .mk [] env.ip (some env)
    let tg2 : ThreadGlobals :=
      { fileEnv := tg.fileEnv
        topEnv := tg.topEnv
        globalsTable := tg.globalsTable }
    .next (env.withIp (env.ip + 1)) tg
      (some
        { funv := evalExpr f env2
          argv := args.map (fun a => evalExpr a env2)
          tg := tg2 })

/-! ## Instruction counting helpers -/

/-- Whether an instruction is the push-environment instruction. -/
def Instr.isPush : Instr → Bool
  | .pushEnv _ => true
  | _ => false

/-- Whether an instruction is the pop-environment instruction. -/
def Instr.isPop : Instr → Bool
  | .popEnv => true
  | _ => false

/-- Number of push-environment instructions in a stream. -/
def pushCount (l : List Instr) : Nat :=
  l.countP (·.isPush)

/-- Number of pop-environment instructions in a stream. -/
def popCount (l : List Instr) : Nat :=
  l.countP (·.isPop)

/-- A stream fragment is balanced when it pushes exactly as many
environments as it pops. -/
def Balanced (l : List Instr) : Prop :=
  pushCount l = popCount l

/-! # Theorems -/

/-- **C10.**  Passing a nil statement node to the statement dispatcher is
accepted as a silent no-op: it appends no instructions, raises no compile
error, and leaves the compiler frame untouched, exactly like the empty
statement — while any unrecognized statement kind is a fatal
"unimplemented statement" error. -/
theorem c10_nil_stmt_silent_noop (c : Comp) (s : CompState) (k : String) :
    compileStmt [] c s .nilStmt = .ok (c, s) ∧
    compileStmt [] c s .empty = .ok (c, s) ∧
    compileStmt [] c s (.unknown k) =
      .error ("unimplemented statement: " ++ k) := by
  refine ⟨?_, ?_, ?_⟩ <;> simp [compileStmt]

/-- **C5.**  Compiling a defer statement appends exactly one instruction
and marks the code unit as having defers; executing that instruction
evaluates the callee and every argument immediately (so the installed
pending call stores the *values* the arguments have at defer-execution
time — later mutation of an argument variable cannot change what the
deferred call receives), installs the spread/plain pending call in the
thread's pending-deferred-call slot, sets the signal to defer-pending and
transfers to the thread's interrupt instruction with the instruction
pointer advanced past the defer. -/
theorem c5_defer_evaluates_immediately (c : Comp) (s : CompState)
    (f : Expr) (args : List Expr) (ell : Bool) (cells : List Nat)
    (env : Env) (tg : ThreadGlobals)
    (hf : f.isBad = false) (hargs : args.any (·.isBad) = false) :
    compileStmt [] c s (.deferS f args ell) =
      .ok (c, { s.append (.deferInstr f args ell) with withDefers := true }) ∧
    execInstr cells (.deferInstr f args ell) env tg =
      .toInterrupt (env.withIp (env.ip + 1))
        { tg with
          installDefer := some
            { funv := evalExpr f env
              argv := args.map (fun a => evalExpr a env)
              spread := ell }
          signal := .sigDefer } := by
  constructor
  · simp [compileStmt, compileDefer, hf, hargs]
  · simp [execInstr]

/-- **C5 witness.**  Concrete scenario from the spec's test: `defer g(x)`
with `x` living in slot 0 holding 5.  The pending call snapshots the
value 5; mutating `x` to 7 afterwards changes what the expression would
evaluate to, but not the recorded argument. -/
theorem c5_defer_evaluates_immediately_witness :
    (compileStmt [] [{}] {} (.deferS (.readSlot 1) [.readSlot 0] false) =
      .ok ([{}],
        { code := [.deferInstr (.readSlot 1) [.readSlot 0] false]
          cells := []
          withDefers := true }) ∧
     execInstr [] (.deferInstr (.readSlot 1) [.readSlot 0] false)
        (.mk [5, 9] 3 none) { fileEnv := 0, topEnv := 0, globalsTable := 0 } =
      .toInterrupt (.mk [5, 9] 4 none)
        { fileEnv := 0, topEnv := 0, globalsTable := 0
          installDefer := some { funv := 9, argv := [5], spread := false }
          signal := .sigDefer }) ∧
    -- mutating the argument variable after the defer does not change the
    -- snapshotted argument value, although the variable itself changed:
    ((Env.mk [5, 9] 4 none).setSlotAt 0 0 7).slot 0 = 7 := by
  constructor
  · have h := c5_defer_evaluates_immediately [{}] {} (.readSlot 1)
      [.readSlot 0] false [] (.mk [5, 9] 3 none)
      { fileEnv := 0, topEnv := 0, globalsTable := 0 }
      (by decide) (by decide)
    simpa [CompState.append, Env.withIp, Env.ip, evalExpr, Env.slot,
      Env.slots] using h
  · decide

/-- **C9.**  Compiling a go statement appends one instruction; executing
it builds a brand-new `ThreadGlobals` for the spawned task that shares
exactly the file-scope environment, the top-level environment and the
Globals table with the launcher, with signal, interrupt, pending-defer
and environment pool freshly zero-initialized; the function value and all
arguments are evaluated synchronously at launch time in the wrapper
environment `NewEnv4Func(env, 0, 0)`, and the launcher proceeds to its
next instruction (its own `ThreadGlobals` untouched) without awaiting the
task. -/
theorem c9_go_spawns_fresh_threadglobals (c : Comp) (s : CompState)
    (f : Expr) (args : List Expr) (cells : List Nat) (env : Env)
    (tg : ThreadGlobals)
    (hf : f.isBad = false) (hargs : args.any (·.isBad) = false) :
    compileStmt [] c s (.goS f args) =
      .ok (c, s.append (.goInstr f args)) ∧
    execInstr cells (.goInstr f args) env tg =
      .next (env.withIp (env.ip + 1)) tg
        (some
          { funv := evalExpr f (.mk [] env.ip (some env))
            argv := args.map (fun a => evalExpr a (.mk [] env.ip (some env)))
            tg :=
              { signal := .none
                interrupt := none
                installDefer := none
                fileEnv := tg.fileEnv
                topEnv := tg.topEnv
                globalsTable := tg.globalsTable
                poolSize := 0 } }) := by
  constructor
  · simp [compileStmt, compileGo, hf, hargs]
  · simp [execInstr]

/-- **C9 witness.**  A concrete launch: `go g(x)` with the launcher's
globals table 42, file scope 7, top scope 8, dirty signal state; the
spawned task shares exactly those three references, gets fresh zeroed
signal/interrupt/pool, and the launcher moves to the next instruction. -/
theorem c9_go_spawns_fresh_threadglobals_witness :
    compileStmt [] [{}] {} (.goS (.readSlotUp 1 1) [.readSlotUp 1 0]) =
      .ok ([{}], { code := [.goInstr (.readSlotUp 1 1) [.readSlotUp 1 0]], cells := [] }) ∧
    execInstr [] (.goInstr (.readSlotUp 1 1) [.readSlotUp 1 0])
        (.mk [5, 9] 3 none)
        { signal := .sigDefer, interrupt := some 11
          installDefer := some { funv := 1, argv := [], spread := false }
          fileEnv := 7, topEnv := 8, globalsTable := 42, poolSize := 4 } =
      .next (.mk [5, 9] 4 none)
        { signal := .sigDefer, interrupt := some 11
          installDefer := some { funv := 1, argv := [], spread := false }
          fileEnv := 7, topEnv := 8, globalsTable := 42, poolSize := 4 }
        (some
          { funv := 9, argv := [5]
            tg := { signal := .none, interrupt := none, installDefer := none
                    fileEnv := 7, topEnv := 8, globalsTable := 42
                    poolSize := 0 } }) := by
  have h := c9_go_spawns_fresh_threadglobals [{}] {} (.readSlotUp 1 1)
    [.readSlotUp 1 0] [] (.mk [5, 9] 3 none)
    { signal := .sigDefer, interrupt := some 11
      installDefer := some { funv := 1, argv := [], spread := false }
      fileEnv := 7, topEnv := 8, globalsTable := 42, poolSize := 4 }
    (by decide) (by decide)
  simpa [CompState.append, Env.withIp, Env.ip, evalExpr, Env.slot,
    Env.slots, Env.outer, Env.up] using h

/-- **C4.**  `return f()` with one expression and more than one expected
result: the expression is treated as a multi-value call; every produced
value is checked for assignability against the corresponding result
bind's declared type — any mismatch is a fatal "incompatible types in
assignment" error (so no return instruction is ever emitted); on success
exactly one instruction is appended, and executing it reads all the
call's values from the environment as it was *before* any assignment,
then writes every result bind, then sets the return signal and transfers
to the interrupt — the binds are never left half-updated. -/
theorem c4_return_multi_values (c : Comp) (s : CompState)
    (cinfo : FuncInfo) (upn : Nat) (outs : List Ty) (src : List Nat)
    (cells : List Nat) (env : Env) (tg : ThreadGlobals) (slots : List Nat)
    (hfind : funcSearch c 0 = some (cinfo, upn))
    (hn : 2 ≤ cinfo.results.length)
    (houts : outs.length = cinfo.results.length) :
    (((cinfo.results.zip outs).all fun bt => Ty.assignableTo bt.2 bt.1.ty) = false →
      ∃ te ta : Ty, compileStmt [] c s (.retS [.multiCall outs src]) =
        .error ("incompatible types in assignment: " ++ toString te ++
          " = " ++ toString ta)) ∧
    (((cinfo.results.zip outs).all fun bt => Ty.assignableTo bt.2 bt.1.ty) = true →
      compileStmt [] c s (.retS [.multiCall outs src]) =
        .ok (c, s.append
          (.returnMulti (.multiCall outs src) upn (cinfo.results.map (·.slot))))) ∧
    execInstr cells (.returnMulti (.multiCall outs src) upn slots) env tg =
      .toInterrupt
        ((slots.zip (src.map env.slot)).foldl
          (fun e2 sv => e2.setSlotAt upn sv.1 sv.2) env)
        { tg with signal := .sigReturn } := by
  have hroute : compileStmt [] c s (.retS [.multiCall outs src]) =
      returnMultiValues c s cinfo.results upn [.multiCall outs src] := by
    simp only [compileStmt, compileReturn, hfind]
    have h1 : ¬ (1 = cinfo.results.length) := by omega
    have h0 : ¬ (cinfo.results.length = 0) := by omega
    simp [h1, h0, List.length]
  refine ⟨?_, ?_, ?_⟩
  · intro hbad
    rw [hroute]
    simp only [returnMultiValues, Expr.isBad, houts]
    rw [List.all_eq_false] at hbad
    obtain ⟨bt, hmem, hpred⟩ := hbad
    have : ∃ x, (cinfo.results.zip outs).find?
        (fun bt => ! Ty.assignableTo bt.2 bt.1.ty) = some x := by
      rw [← Option.isSome_iff_exists, List.find?_isSome]
      exact ⟨bt, hmem, by simp_all⟩
    obtain ⟨x, hx⟩ := this
    refine ⟨x.1.ty, x.2, ?_⟩
    simp [hx]
  · intro hgood
    rw [hroute]
    simp only [returnMultiValues, Expr.isBad, houts]
    have hnone : (cinfo.results.zip outs).find?
        (fun bt => ! Ty.assignableTo bt.2 bt.1.ty) = none := by
      rw [List.find?_eq_none]
      intro x hx
      rw [List.all_eq_true] at hgood
      simp [hgood x hx]
    simp [hnone]
  · simp [execInstr, evalMultiOf]

/-- **C4 witness.**  A function with two results of types 3 and 4:
`return f()` succeeds when `f` produces values of exactly those types
(emitting the single combined instruction), and executing the
instruction assigns both result slots and signals return. -/
theorem c4_return_multi_values_witness :
    ((([(⟨7, 0⟩ : Bind), ⟨9, 1⟩].zip [7, 9]).all
        fun bt => Ty.assignableTo bt.2 bt.1.ty) = true →
      compileStmt []
          [{ func := some { results := [⟨7, 0⟩, ⟨9, 1⟩], namedResults := false } }]
          {} (.retS [.multiCall [7, 9] [2, 3]]) =
        .ok ([{ func := some { results := [⟨7, 0⟩, ⟨9, 1⟩], namedResults := false } }],
          CompState.append {} (.returnMulti (.multiCall [7, 9] [2, 3]) 0 [0, 1]))) ∧
    execInstr [] (.returnMulti (.multiCall [7, 9] [2, 3]) 0 [0, 1])
        (.mk [0, 0, 5, 6] 0 none) { fileEnv := 0, topEnv := 0, globalsTable := 0 } =
      .toInterrupt
        (([(0, (5 : Value)), (1, 6)].foldl
          (fun e2 sv => e2.setSlotAt 0 sv.1 sv.2) (.mk [0, 0, 5, 6] 0 none)))
        { fileEnv := 0, topEnv := 0, globalsTable := 0, signal := .sigReturn } := by
  have h := c4_return_multi_values
    [{ func := some { results := [⟨7, 0⟩, ⟨9, 1⟩], namedResults := false } }]
    {} { results := [⟨7, 0⟩, ⟨9, 1⟩], namedResults := false } 0 [7, 9] [2, 3]
    [] (.mk [0, 0, 5, 6] 0 none) { fileEnv := 0, topEnv := 0, globalsTable := 0 }
    [0, 1] (by simp [funcSearch]) (by simp) (by simp)
  refine ⟨h.2.1, ?_⟩
  have h3 := h.2.2
  simpa [Env.slot, Env.slots] using h3

/-- **C3 counterexample.**  The claim says a return with zero expressions
is legal *exactly* when the enclosing function's results are named.  But
the source tests `len(resultExprs) == n` first: in a function with zero
results and `NamedResults == false`, a bare `return` hits that case and
compiles fine, so "legal" does not imply "named results". -/
theorem c3_counterexample :
    compileStmt [] [{ func := some { results := [], namedResults := false } }]
        {} (.retS []) =
      .ok ([{ func := some { results := [], namedResults := false } }],
        CompState.append {} .returnSignal) ∧
    (FuncInfo.namedResults { results := [], namedResults := false }) = false := by
  constructor
  · simp [compileStmt, compileReturn, funcSearch, CompState.append]
  · rfl

/-- **C3 (amended).**  For every return statement: with no enclosing
function-root frame, compilation fails with "return outside function".
With zero expressions: if the results are named (or, amendment: if the
function has zero results, since the equal-count rule is tested first),
the return is legal and appends only the return-signal instruction, with
no assignment instructions; if results are unnamed and the function has
at least one result it fails "expecting N expressions, found 0".  A
count that is neither 0, nor 1, nor the result count fails with the
arity error "expecting N expressions, found M". -/
theorem c3_return_arity (c : Comp) (s : CompState) (exprs : List Expr)
    (cinfo : FuncInfo) (upn : Nat) :
    (funcSearch c 0 = none →
      compileStmt [] c s (.retS exprs) = .error "return outside function") ∧
    (funcSearch c 0 = some (cinfo, upn) →
      (exprs = [] → cinfo.namedResults = true →
        compileStmt [] c s (.retS exprs) = .ok (c, s.append .returnSignal)) ∧
      (exprs = [] → cinfo.results.length = 0 →
        compileStmt [] c s (.retS exprs) = .ok (c, s.append .returnSignal)) ∧
      (exprs = [] → cinfo.namedResults = false → cinfo.results.length ≠ 0 →
        compileStmt [] c s (.retS exprs) =
          .error ("return: expecting " ++ toString cinfo.results.length ++
            " expressions, found 0")) ∧
      (exprs.length ≠ 0 → exprs.length ≠ 1 →
        exprs.length ≠ cinfo.results.length →
        compileStmt [] c s (.retS exprs) =
          .error ("return: expecting " ++ toString cinfo.results.length ++
            " expressions, found " ++ toString exprs.length))) := by
  constructor
  · intro hnone
    simp [compileStmt, compileReturn, hnone]
  · intro hsome
    refine ⟨?_, ?_, ?_, ?_⟩
    · rintro rfl hnamed
      by_cases h0 : cinfo.results.length = 0
      · simp [compileStmt, compileReturn, hsome, h0, List.zip_nil_right]
      · simp [compileStmt, compileReturn, hsome, Ne.symm h0, hnamed]
    · rintro rfl h0
      simp [compileStmt, compileReturn, hsome, h0, List.zip_nil_right]
    · rintro rfl hnamed h0
      simp [compileStmt, compileReturn, hsome, Ne.symm h0, hnamed]
    · intro h0 h1 hn
      simp [compileStmt, compileReturn, hsome, h0, h1]
      exact fun h => absurd h hn

/-- **C3 witness.**  The amended rules applied concretely: a naked
return in a `(a, b int)` named-results function appends only the
return-signal instruction, and `return` with 3 expressions in a
2-result function fails with the arity message. -/
theorem c3_return_arity_witness :
    (compileStmt [] []
        {} (.retS []) = .error "return outside function") ∧
    (compileStmt []
        [{ func := some { results := [⟨7, 0⟩, ⟨7, 1⟩], namedResults := true } }]
        {} (.retS []) =
      .ok ([{ func := some { results := [⟨7, 0⟩, ⟨7, 1⟩], namedResults := true } }],
        CompState.append {} .returnSignal)) ∧
    (compileStmt []
        [{ func := some { results := [⟨7, 0⟩, ⟨7, 1⟩], namedResults := true } }]
        {} (.retS [.constInt 1, .constInt 2, .constInt 3]) =
      .error "return: expecting 2 expressions, found 3") := by
  refine ⟨?_, ?_, ?_⟩
  · exact (c3_return_arity [] {} [] { results := [], namedResults := false } 0).1
      (by simp [funcSearch])
  · exact (((c3_return_arity
      [{ func := some { results := [⟨7, 0⟩, ⟨7, 1⟩], namedResults := true } }]
      {} [] { results := [⟨7, 0⟩, ⟨7, 1⟩], namedResults := true } 0).2
      (by simp [funcSearch])).1 rfl rfl)
  · exact (((c3_return_arity
      [{ func := some { results := [⟨7, 0⟩, ⟨7, 1⟩], namedResults := true } }]
      {} [.constInt 1, .constInt 2, .constInt 3]
      { results := [⟨7, 0⟩, ⟨7, 1⟩], namedResults := true } 0).2
      (by simp [funcSearch])).2.2.2 (by simp) (by simp) (by simp))

/-! ## Break/continue resolution, characterized (for C2)

The following definitions restate the claim's description of the walk
("the nearest Loop Info whose label set matches, not crossing a
function-root frame, with up-cost the sum of the up-costs accumulated
along the walk") in terms of list indexing; they are the specification
side of a refinement proof against `breakSearch`/`continueSearch`. -/

/-- A generic version of the `Comp.Break`/`Comp.Continue` walk,
abstracted over which jump-target slot of a `LoopInfo` is requested. -/
def branchSearch (getCell : LoopInfo → Option Nat) (label : String) :
    Comp → Nat → Option (Nat × Nat)
  | [], _ => none
  | f :: rest, upn =>
    if f.func.isSome then none
    else
      match f.loop with
      | some li =>
        match getCell li with
        | some cell =>
          if label = "" || li.thisLabels.contains label then some (upn, cell)
          else branchSearch getCell label rest (upn + f.upCost)
        | none => branchSearch getCell label rest (upn + f.upCost)
      | none => branchSearch getCell label rest (upn + f.upCost)

/-- Whether one frame owns a Loop Info with the requested target slot
whose label set matches the statement's label (any such Loop Info when
the statement is unlabeled). -/
def frameMatches (getCell : LoopInfo → Option Nat) (label : String)
    (f : Frame) : Bool :=
  match f.loop with
  | some li => (getCell li).isSome && (label == "" || li.thisLabels.contains label)
  | none => false

/-- The requested jump-target cell recorded in a frame's Loop Info. -/
def loopCellOf (getCell : LoopInfo → Option Nat) (f : Frame) : Nat :=
  match f.loop with
  | some li => (getCell li).getD 0
  | none => 0

/-- Sum of the up-costs of a frame-chain prefix: the number of runtime
environments that must be exited to reach that point of the chain. -/
def upCostSum (c : Comp) : Nat :=
  (c.map (·.upCost)).sum

/-- The claim's resolution condition: frame `i` is the nearest matching
loop — every frame up to and including `i` is below the function
boundary, frame `i` matches, and no frame nearer than `i` matches. -/
def ResolvesAt (getCell : LoopInfo → Option Nat) (label : String)
    (c : Comp) (i : Nat) : Prop :=
  i < c.length ∧
  (∀ j, j ≤ i → (c.getD j {}).func = none) ∧
  frameMatches getCell label (c.getD i {}) = true ∧
  (∀ j, j < i → frameMatches getCell label (c.getD j {}) = false)

theorem breakSearch_eq_branchSearch (label : String) :
    ∀ (c : Comp) (u : Nat),
      breakSearch label c u = branchSearch (·.breakCell) label c u := by
  intro c
  induction c with
  | nil => intro u; rfl
  | cons f rest ih =>
    intro u
    simp only [breakSearch, branchSearch, ih]

theorem continueSearch_eq_branchSearch (label : String) :
    ∀ (c : Comp) (u : Nat),
      continueSearch label c u = branchSearch (·.continueCell) label c u := by
  intro c
  induction c with
  | nil => intro u; rfl
  | cons f rest ih =>
    intro u
    simp only [continueSearch, branchSearch, ih]

/-- The walk finds exactly the claim's nearest matching Loop Info, with
up-cost the sum of the up-costs of the frames walked past. -/
theorem branchSearch_some_iff (getCell : LoopInfo → Option Nat)
    (label : String) :
    ∀ (c : Comp) (u upn cell : Nat),
      branchSearch getCell label c u = some (upn, cell) ↔
      ∃ i, ResolvesAt getCell label c i ∧
        upn = u + upCostSum (c.take i) ∧
        cell = loopCellOf getCell (c.getD i {}) := by
  intro c
  induction c with
  | nil =>
    intro u upn cell
    simp [branchSearch, ResolvesAt]
  | cons f rest ih =>
    intro u upn cell
    by_cases hf : f.func.isSome
    · simp only [branchSearch, hf, if_true]
      constructor
      · intro h; cases h
      · rintro ⟨i, ⟨_, hfn, _, _⟩, _, _⟩
        have := hfn 0 (Nat.zero_le i)
        simp only [List.getD_cons_zero] at this
        rw [this] at hf
        cases hf
    · have hfn : f.func = none := Option.not_isSome_iff_eq_none.mp hf
      -- helper: the shifted equivalence used by all non-matching cases
      have hshift : frameMatches getCell label f = false →
          ((branchSearch getCell label rest (u + f.upCost) = some (upn, cell)) ↔
           ∃ i, ResolvesAt getCell label (f :: rest) i ∧
             upn = u + upCostSum ((f :: rest).take i) ∧
             cell = loopCellOf getCell ((f :: rest).getD i {})) := by
        intro hnm
        rw [ih (u + f.upCost) upn cell]
        constructor
        · rintro ⟨i, ⟨hlen, hfn2, hm, hnear⟩, hupn, hcell⟩
          refine ⟨i + 1, ⟨?_, ?_, ?_, ?_⟩, ?_, ?_⟩
          · simpa [Nat.succ_lt_succ_iff] using hlen
          · intro j hj
            cases j with
            | zero => simpa using hfn
            | succ j2 =>
              simp only [List.getD_cons_succ]
              exact hfn2 j2 (Nat.le_of_succ_le_succ hj)
          · simpa using hm
          · intro j hj
            cases j with
            | zero => simpa using hnm
            | succ j2 =>
              simp only [List.getD_cons_succ]
              exact hnear j2 (Nat.lt_of_succ_lt_succ hj)
          · simp only [List.take_succ_cons, upCostSum, List.map_cons,
              List.sum_cons] at *
            omega
          · simpa using hcell
        · rintro ⟨i, ⟨hlen, hfn2, hm, hnear⟩, hupn, hcell⟩
          cases i with
          | zero =>
            simp only [List.getD_cons_zero] at hm
            rw [hm] at hnm
            cases hnm
          | succ i2 =>
            refine ⟨i2, ⟨?_, ?_, ?_, ?_⟩, ?_, ?_⟩
            · simpa [Nat.succ_lt_succ_iff] using hlen
            · intro j hj
              have := hfn2 (j + 1) (Nat.succ_le_succ hj)
              simpa using this
            · simpa using hm
            · intro j hj
              have := hnear (j + 1) (Nat.succ_lt_succ hj)
              simpa using this
            · simp only [List.take_succ_cons, upCostSum, List.map_cons,
                List.sum_cons] at *
              omega
            · simpa using hcell
      simp only [branchSearch, hf, Bool.false_eq_true, if_false]
      split
      next li hl =>
        split
        next cell0 hc =>
          split
          next hm =>
            -- the head frame matches: the walk stops here
            have hmm : frameMatches getCell label f = true := by
              simp only [frameMatches, hl, hc, Option.isSome_some,
                Bool.true_and]
              simpa using hm
            constructor
            · intro h
              injection h with h2
              have h3a : upn = u := (congrArg Prod.fst h2).symm
              have h3b : cell = cell0 := (congrArg Prod.snd h2).symm
              refine ⟨0, ⟨by simp, ?_, by simpa using hmm, by omega⟩, ?_, ?_⟩
              · intro j hj
                interval_cases j
                simpa using hfn
              · simp [upCostSum, h3a]
              · simp [loopCellOf, hl, hc, h3b]
            · rintro ⟨i, ⟨hlen, hfn2, hm2, hnear⟩, hupn, hcell⟩
              have hi0 : i = 0 := by
                by_contra hne
                have := hnear 0 (Nat.pos_of_ne_zero hne)
                simp only [List.getD_cons_zero] at this
                rw [hmm] at this
                cases this
              subst hi0
              simp only [List.take_zero, upCostSum, List.map_nil,
                List.sum_nil, Nat.add_zero] at hupn
              simp only [List.getD_cons_zero, loopCellOf, hl, hc,
                Option.getD_some] at hcell
              rw [hupn, hcell]
          next hm =>
            have hnm : frameMatches getCell label f = false := by
              simp only [frameMatches, hl, hc, Option.isSome_some,
                Bool.true_and]
              simpa using hm
            exact hshift hnm
        next hc =>
          have hnm : frameMatches getCell label f = false := by
            simp [frameMatches, hl, hc]
          exact hshift hnm
      next hl =>
        have hnm : frameMatches getCell label f = false := by
          simp [frameMatches, hl]
        exact hshift hnm

/-- The walk fails exactly when no frame before the function boundary
matches. -/
theorem branchSearch_none_iff (getCell : LoopInfo → Option Nat)
    (label : String) (c : Comp) (u : Nat) :
    branchSearch getCell label c u = none ↔
      ∀ i, ¬ ResolvesAt getCell label c i := by
  constructor
  · intro hnone i hres
    have : ∃ upn cell, branchSearch getCell label c u = some (upn, cell) := by
      refine ⟨u + upCostSum (c.take i), loopCellOf getCell (c.getD i {}), ?_⟩
      rw [branchSearch_some_iff]
      exact ⟨i, hres, rfl, rfl⟩
    obtain ⟨upn, cell, h⟩ := this
    rw [hnone] at h
    cases h
  · intro hno
    cases h : branchSearch getCell label c u with
    | none => rfl
    | some p =>
      obtain ⟨upn, cell⟩ := p
      rw [branchSearch_some_iff] at h
      obtain ⟨i, hres, -, -⟩ := h
      exact absurd hres (hno i)

/-- **C2 counterexample.**  The claim predicts the message
"continue outside for/switch" for an unlabeled continue with no
enclosing loop, but `Comp.Continue` emits "continue outside for"
(`Comp.Break` alone mentions for/switch). -/
theorem c2_counterexample :
    compileStmt [] [{}] {} (.branch .continueT none) =
      .error "continue outside for" ∧
    "continue outside for" ≠ "continue outside for/switch" := by
  constructor
  · simp [compileStmt, compileContinue, continueSearch, Bind.bind, Except.bind]
  · decide

/-- **C2 (amended).**  Break/continue resolution: the outward walk finds
exactly the nearest enclosing frame (never crossing a function-root
frame) whose Loop Info carries the requested target slot and whose label
set matches the statement's label (any such Loop Info when unlabeled);
on success one jump instruction is emitted whose up-cost is the sum of
the up-costs of the frames walked past (the exact number of
runtime-environment hops); on failure, compilation fails with
"break/continue label not defined" when a label was given, otherwise
with "break outside for/switch" for break and — amendment — with
"continue outside for" for continue. -/
theorem c2_branch_resolution (c : Comp) (s : CompState) (lab : Option String) :
    (∀ upn cell, breakSearch (lab.getD "") c 0 = some (upn, cell) ↔
      ∃ i, ResolvesAt (·.breakCell) (lab.getD "") c i ∧
        upn = upCostSum (c.take i) ∧
        cell = loopCellOf (·.breakCell) (c.getD i {})) ∧
    (∀ upn cell, continueSearch (lab.getD "") c 0 = some (upn, cell) ↔
      ∃ i, ResolvesAt (·.continueCell) (lab.getD "") c i ∧
        upn = upCostSum (c.take i) ∧
        cell = loopCellOf (·.continueCell) (c.getD i {})) ∧
    (∀ upn cell, breakSearch (lab.getD "") c 0 = some (upn, cell) →
      compileStmt [] c s (.branch .breakT lab) =
        .ok (c, s.append (.jumpOut upn cell))) ∧
    (∀ upn cell, continueSearch (lab.getD "") c 0 = some (upn, cell) →
      compileStmt [] c s (.branch .continueT lab) =
        .ok (c, s.append (.jumpOut upn cell))) ∧
    (breakSearch (lab.getD "") c 0 = none → lab.getD "" ≠ "" →
      compileStmt [] c s (.branch .breakT lab) =
        .error ("break label not defined: " ++ lab.getD "")) ∧
    (breakSearch (lab.getD "") c 0 = none → lab.getD "" = "" →
      compileStmt [] c s (.branch .breakT lab) =
        .error "break outside for/switch") ∧
    (continueSearch (lab.getD "") c 0 = none → lab.getD "" ≠ "" →
      compileStmt [] c s (.branch .continueT lab) =
        .error ("continue label not defined: " ++ lab.getD "")) ∧
    (continueSearch (lab.getD "") c 0 = none → lab.getD "" = "" →
      compileStmt [] c s (.branch .continueT lab) =
        .error "continue outside for") := by
  refine ⟨?_, ?_, ?_, ?_, ?_, ?_, ?_, ?_⟩
  · intro upn cell
    rw [breakSearch_eq_branchSearch, branchSearch_some_iff]
    simp
  · intro upn cell
    rw [continueSearch_eq_branchSearch, branchSearch_some_iff]
    simp
  · intro upn cell h
    simp [compileStmt, compileBreak, h, Bind.bind, Except.bind]
  · intro upn cell h
    simp [compileStmt, compileContinue, h, Bind.bind, Except.bind]
  · intro h hne
    simp [compileStmt, compileBreak, h, hne, Bind.bind, Except.bind]
  · intro h heq
    rw [heq] at h
    simp [compileStmt, compileBreak, h, heq, Bind.bind, Except.bind]
  · intro h hne
    simp [compileStmt, compileContinue, h, hne, Bind.bind, Except.bind]
  · intro h heq
    rw [heq] at h
    simp [compileStmt, compileContinue, h, heq, Bind.bind, Except.bind]

/-- **C2 witness.**  The spec's doubly-nested scenario, concretely:
```
L: for pred { x := 1; for pred { continue L } }
```
At the `continue L` site the frame chain is (innermost first) the inner
body's frame, the inner loop's frame (labels `[]`), the outer body's
frame (up-cost 1: it pushed an environment for `x`), the outer loop's
frame (labels `["L"]`), and the root.  The theorem applied there emits
`jumpOut 1 2`: up-cost exactly 1 runtime-environment hop, to cell 2 —
the *outer* loop's continue target, not the inner's (cell 8).  The final
conjunct checks the full compiled program: instruction 4 is that jump,
and cell 2 resolves to IP 0, the outer loop's condition. -/
theorem c2_branch_resolution_witness :
    (compileStmt []
        [{ upCost := 0, depth := 1 },
         { upCost := 0, depth := 1,
           loop := some { breakCell := some 9, continueCell := some 8,
                          thisLabels := [] } },
         { upCost := 1, depth := 1, bindNum := 1 },
         { upCost := 0, depth := 0,
           loop := some { breakCell := some 3, continueCell := some 2,
                          thisLabels := ["L"] } },
         {}]
        { code := [.condJumpFor 0 3, .pushEnv 4, .assignStmt, .condJumpFor 0 9]
          cells := [0, 0, 0, 0, 0, 0, 0, 0, 0, 0, 0, 0] }
        (.branch .continueT (some "L")) =
      .ok
        ([{ upCost := 0, depth := 1 },
          { upCost := 0, depth := 1,
            loop := some { breakCell := some 9, continueCell := some 8,
                           thisLabels := [] } },
          { upCost := 1, depth := 1, bindNum := 1 },
          { upCost := 0, depth := 0,
            loop := some { breakCell := some 3, continueCell := some 2,
                           thisLabels := ["L"] } },
          {}],
         { code := [.condJumpFor 0 3, .pushEnv 4, .assignStmt,
                    .condJumpFor 0 9, .jumpOut 1 2]
           cells := [0, 0, 0, 0, 0, 0, 0, 0, 0, 0, 0, 0] })) ∧
    compileStmt [] [{}] {}
      (.labeled "L"
        (.forS .nilStmt (some (.dynPred 0)) .nilStmt
          (.cons (.assign .define ["x"] [.constInt 1])
            (.cons
              (.forS .nilStmt (some (.dynPred 0)) .nilStmt
                (.cons (.branch .continueT (some "L")) .nil))
              .nil)))) =
    .ok ([{}],
      { code := [.condJumpFor 0 3, .pushEnv 4, .assignStmt, .condJumpFor 0 9,
                 .jumpOut 1 2, .jumpConst 3, .popEnv, .jumpConst 0],
        cells := [0, 0, 0, 8, 1, 0, 0, 0, 3, 6, 0, 0] }) := by
  constructor
  · have h := (c2_branch_resolution
      [{ upCost := 0, depth := 1 },
       { upCost := 0, depth := 1,
         loop := some { breakCell := some 9, continueCell := some 8,
                        thisLabels := [] } },
       { upCost := 1, depth := 1, bindNum := 1 },
       { upCost := 0, depth := 0,
         loop := some { breakCell := some 3, continueCell := some 2,
                        thisLabels := ["L"] } },
       {}]
      { code := [.condJumpFor 0 3, .pushEnv 4, .assignStmt, .condJumpFor 0 9]
        cells := [0, 0, 0, 0, 0, 0, 0, 0, 0, 0, 0, 0] }
      (some "L")).2.2.2.1 1 2 (by decide)
    simpa [CompState.append] using h
  · -- stepwise evaluation, innermost construct first
    have hcont : compileStmt []
        [({ upCost := 0, depth := 1 } : Frame),
         { upCost := 0, depth := 1,
           loop := some { breakCell := some 9, continueCell := some 8,
                          thisLabels := [] } },
         { upCost := 1, depth := 1, bindNum := 1 },
         { upCost := 0, depth := 0,
           loop := some { breakCell := some 3, continueCell := some 2,
                          thisLabels := ["L"] } },
         {}]
        { code := [.condJumpFor 0 3, .pushEnv 4, .assignStmt, .condJumpFor 0 9]
          cells := [0, 0, 0, 0, 0, 0, 0, 0, 0, 0, 0, 0] }
        (.branch .continueT (some "L")) =
      .ok
        ([{ upCost := 0, depth := 1 },
          { upCost := 0, depth := 1,
            loop := some { breakCell := some 9, continueCell := some 8,
                           thisLabels := [] } },
          { upCost := 1, depth := 1, bindNum := 1 },
          { upCost := 0, depth := 0,
            loop := some { breakCell := some 3, continueCell := some 2,
                           thisLabels := ["L"] } },
          {}],
         { code := [.condJumpFor 0 3, .pushEnv 4, .assignStmt,
                    .condJumpFor 0 9, .jumpOut 1 2]
           cells := [0, 0, 0, 0, 0, 0, 0, 0, 0, 0, 0, 0] }) := by
      have hs : continueSearch "L"
          [({ upCost := 0, depth := 1 } : Frame),
           { upCost := 0, depth := 1,
             loop := some { breakCell := some 9, continueCell := some 8,
                            thisLabels := [] } },
           { upCost := 1, depth := 1, bindNum := 1 },
           { upCost := 0, depth := 0,
             loop := some { breakCell := some 3, continueCell := some 2,
                            thisLabels := ["L"] } },
           {}] 0 = some (1, 2) := by decide
      simp [compileStmt, compileContinue, hs, CompState.append, Bind.bind, Except.bind]
    have hinner : compileStmt []
        [({ upCost := 1, depth := 1, bindNum := 1 } : Frame),
         { upCost := 0, depth := 0,
           loop := some { breakCell := some 3, continueCell := some 2,
                          thisLabels := ["L"] } },
         {}]
        { code := [.condJumpFor 0 3, .pushEnv 4, .assignStmt]
          cells := [0, 0, 0, 0, 0, 0] }
        (.forS .nilStmt (some (.dynPred 0)) .nilStmt
          (.cons (.branch .continueT (some "L")) .nil)) =
      .ok
        ([{ upCost := 1, depth := 1, bindNum := 1 },
          { upCost := 0, depth := 0,
            loop := some { breakCell := some 3, continueCell := some 2,
                           thisLabels := ["L"] } },
          {}],
         { code := [.condJumpFor 0 3, .pushEnv 4, .assignStmt,
                    .condJumpFor 0 9, .jumpOut 1 2, .jumpConst 3]
           cells := [0, 0, 0, 0, 0, 0, 0, 0, 3, 6, 0, 0] }) := by
      simp [compileStmt, compileFor, compileBlockL, compileListC,
        compileStmtList, containLocalBinds, containLocalBind1,
        pushEnvIfFlag, popEnvIfFlagCore, tryAsPred, CompState.append,
        CompState.setCell, CompState.allocCell, Comp.setLoop,
        Comp.headDepth, Expr.isBad, Stm.isNil, Bind.bind, Except.bind,
        Pure.pure, Except.pure, hcont]
    -- generalize the inner loop to an opaque statement so the rewrite
    -- below uses `hinner` instead of re-unfolding the nested compile
    have hgen : ∀ st : Stm, containLocalBind1 st = false →
        compileStmt []
          [({ upCost := 1, depth := 1, bindNum := 1 } : Frame),
           { upCost := 0, depth := 0,
             loop := some { breakCell := some 3, continueCell := some 2,
                            thisLabels := ["L"] } },
           {}]
          { code := [.condJumpFor 0 3, .pushEnv 4, .assignStmt]
            cells := [0, 0, 0, 0, 0, 0] } st =
        .ok
          ([{ upCost := 1, depth := 1, bindNum := 1 },
            { upCost := 0, depth := 0,
              loop := some { breakCell := some 3, continueCell := some 2,
                             thisLabels := ["L"] } },
            {}],
           { code := [.condJumpFor 0 3, .pushEnv 4, .assignStmt,
                      .condJumpFor 0 9, .jumpOut 1 2, .jumpConst 3]
             cells := [0, 0, 0, 0, 0, 0, 0, 0, 3, 6, 0, 0] }) →
        compileStmt ["L"] [{}] {}
          (.forS .nilStmt (some (.dynPred 0)) .nilStmt
            (.cons (.assign .define ["x"] [.constInt 1]) (.cons st .nil))) =
        .ok ([{}],
          { code := [.condJumpFor 0 3, .pushEnv 4, .assignStmt,
                     .condJumpFor 0 9, .jumpOut 1 2, .jumpConst 3, .popEnv,
                     .jumpConst 0],
            cells := [0, 0, 0, 8, 1, 0, 0, 0, 3, 6, 0, 0] }) := by
      intro st hbind hst
      simp [compileStmt, compileFor, compileBlockL, compileListC,
        compileStmtList, compileAssign, containLocalBinds,
        containLocalBind1, pushEnvIfFlag, popEnvIfFlagCore, tryAsPred,
        CompState.append, CompState.setCell, CompState.allocCell,
        Comp.setLoop, Comp.addBinds, Comp.headDepth, Expr.isBad,
        Expr.isConst, Stm.isNil, List.filter, Bind.bind, Except.bind,
        Pure.pure, Except.pure, hbind, hst]
    have houter := hgen
      (.forS .nilStmt (some (.dynPred 0)) .nilStmt
        (.cons (.branch .continueT (some "L")) .nil))
      (by decide) hinner
    have hlab : ∀ st : Stm, compileStmt [] [{}] {} (.labeled "L" st) =
        compileStmt ["L"] [{}] {} st := by
      intro st
      simp [compileStmt]
    rw [hlab]
    exact houter

/-! ## Structural facts about compilation (for C1, C6, C7, C8)

The compiler only appends to the instruction stream (truncation in
`Comp.For`/`Comp.If` drops back to a position recorded after the
fragment's own start), every appended fragment pushes exactly as many
environments as it pops, and compiling a statement can modify only the
innermost compile-time frame of the chain it was given. -/

/-- Compilation from `s` to `s'` appended a balanced fragment. -/
def ExtendsBal (s s' : CompState) : Prop :=
  ∃ app, s'.code = s.code ++ app ∧ Balanced app

/-- The chains have the same length and the same outer frames: only the
innermost frame may have changed. -/
def SameShape (c c' : Comp) : Prop :=
  c'.length = c.length ∧ c'.drop 1 = c.drop 1

theorem sameShape_rfl (c : Comp) : SameShape c c := ⟨rfl, rfl⟩

theorem sameShape_trans {a b c : Comp} (h1 : SameShape a b)
    (h2 : SameShape b c) : SameShape a c :=
  ⟨h2.1.trans h1.1, h2.2.trans h1.2⟩

theorem sameShape_cons {f f2 : Frame} {c c2 : Comp}
    (h : SameShape (f :: c) (f2 :: c2)) : c2 = c := by
  simpa using h.2

theorem sameShape_head {c c' : Comp} (h : SameShape c c') :
    ∃ f2, c' = f2 :: c.drop 1 ∨ (c = [] ∧ c' = []) := by
  cases c' with
  | nil =>
    cases c with
    | nil => exact ⟨{}, Or.inr ⟨rfl, rfl⟩⟩
    | cons f r => simpa using h.1
  | cons f2 r2 =>
    refine ⟨f2, Or.inl ?_⟩
    have := h.2
    simp at this
    rw [this, List.drop_one]

theorem sameShape_addBinds (c : Comp) (n : Nat) :
    SameShape c (c.addBinds n) := by
  cases c <;> simp [Comp.addBinds, SameShape]

theorem sameShape_addCDecl (c : Comp) (name : String) :
    SameShape c (c.addCDecl name) := by
  cases c <;> simp [Comp.addCDecl, SameShape]

theorem balanced_nil : Balanced [] := rfl

theorem Balanced.append {a b : List Instr} (h1 : Balanced a)
    (h2 : Balanced b) : Balanced (a ++ b) := by
  simp only [Balanced, pushCount, popCount, List.countP_append] at *
  omega

theorem balanced_single {i : Instr} (h1 : i.isPush = false)
    (h2 : i.isPop = false) : Balanced [i] := by
  simp [Balanced, pushCount, popCount, List.countP_cons, h1, h2]

theorem balanced_wrap {app : List Instr} {cell : Nat} (h : Balanced app) :
    Balanced (.pushEnv cell :: (app ++ [.popEnv])) := by
  have e1 : (Instr.pushEnv cell).isPush = true := rfl
  have e2 : (Instr.popEnv).isPush = false := rfl
  have e3 : (Instr.pushEnv cell).isPop = false := rfl
  have e4 : (Instr.popEnv).isPop = true := rfl
  simp only [Balanced, pushCount, popCount, List.countP_cons,
    List.countP_append, List.countP_nil, e1, e2, e3, e4] at *
  simp only [if_true, if_false, Bool.false_eq_true, Nat.add_zero,
    Nat.zero_add]
  omega

theorem extendsBal_rfl (s : CompState) : ExtendsBal s s :=
  ⟨[], by simp, balanced_nil⟩

theorem extendsBal_trans {a b c : CompState} (h1 : ExtendsBal a b)
    (h2 : ExtendsBal b c) : ExtendsBal a c := by
  obtain ⟨app1, he1, hb1⟩ := h1
  obtain ⟨app2, he2, hb2⟩ := h2
  exact ⟨app1 ++ app2, by simp [he2, he1], hb1.append hb2⟩

theorem extendsBal_append {s : CompState} {i : Instr}
    (h1 : i.isPush = false) (h2 : i.isPop = false) :
    ExtendsBal s (s.append i) :=
  ⟨[i], rfl, balanced_single h1 h2⟩

theorem extendsBal_code_left {a a2 b : CompState} (h : a2.code = a.code)
    (he : ExtendsBal a b) : ExtendsBal a2 b := by
  obtain ⟨app, he1, hb⟩ := he
  exact ⟨app, by rw [he1, h], hb⟩

theorem extendsBal_code_right {a b b2 : CompState} (h : b2.code = b.code)
    (he : ExtendsBal a b) : ExtendsBal a b2 := by
  obtain ⟨app, he1, hb⟩ := he
  exact ⟨app, by rw [h, he1], hb⟩

theorem setCell_code (s : CompState) (i v : Nat) :
    (s.setCell i v).code = s.code := rfl

theorem allocCell_code (s : CompState) :
    (s.allocCell).2.code = s.code := rfl

theorem append_code (s : CompState) (i : Instr) :
    (s.append i).code = s.code ++ [i] := rfl

/-- The components of `pushEnvIfFlag`. -/
theorem pushEnvIfFlag_eq (c : Comp) (s : CompState) (flag : Bool) :
    pushEnvIfFlag c s flag =
      ({ upCost := if flag then 1 else 0
         depth := c.headDepth + (if flag then 1 else 0) } :: c,
       { code := if flag then s.code ++ [.pushEnv s.cells.length] else s.code
         cells := s.cells ++ [0, 0]
         withDefers := s.withDefers },
       s.cells.length) := by
  cases flag <;> rfl

/-- What a successful `popEnvIfFlagCore` guarantees. -/
theorem popEnvIfFlagCore_ok {inner : Comp} {s : CompState} {flag : Bool}
    {cellId : Nat} {c' : Comp} {s' : CompState}
    (h : popEnvIfFlagCore inner s flag cellId = .ok (c', s')) :
    ∃ f rest, inner = f :: rest ∧ c' = rest ∧
      s'.code = (if flag then s.code ++ [Instr.popEnv] else s.code) ∧
      s'.cells = (s.cells.set cellId f.bindNum).set (cellId + 1) f.intBindNum ∧
      flag = (decide (f.bindNum ≠ 0) || decide (f.intBindNum ≠ 0)) := by
  cases inner with
  | nil => cases h
  | cons f rest =>
    simp only [popEnvIfFlagCore] at h
    split at h
    · cases h
    · rename_i hne
      have hfe : flag = (decide (f.bindNum ≠ 0) || decide (f.intBindNum ≠ 0)) := by
        by_contra hcon
        exact hne hcon
      by_cases hf : flag
      · simp only [hf, if_true] at h
        injection h with h2
        rw [Prod.mk.injEq] at h2
        exact ⟨f, rest, rfl, h2.1.symm, by
          rw [← h2.2]
          simp [append_code, setCell_code, hf], by
          rw [← h2.2]
          simp [CompState.append, CompState.setCell], hfe⟩
      · simp only [hf, if_false] at h
        injection h with h2
        rw [Prod.mk.injEq] at h2
        exact ⟨f, rest, rfl, h2.1.symm, by
          rw [← h2.2]
          simp [setCell_code, hf], by
          rw [← h2.2]
          simp [CompState.setCell], hfe⟩

/-- `setVar` instructions never touch the environment stack. -/
theorem balanced_map_setVar (upn : Nat) (l : List (Bind × Expr)) :
    Balanced (l.map fun be => Instr.setVar upn be.1.slot be.2) := by
  simp only [Balanced, pushCount, popCount]
  rw [List.countP_eq_zero.mpr, List.countP_eq_zero.mpr]
  · intro x hx
    simp only [List.mem_map] at hx
    obtain ⟨be, -, rfl⟩ := hx
    simp [Instr.isPop]
  · intro x hx
    simp only [List.mem_map] at hx
    obtain ⟨be, -, rfl⟩ := hx
    simp [Instr.isPush]

theorem foldl_setVar_code (upn : Nat) (l : List (Bind × Expr)) :
    ∀ s : CompState,
      (l.foldl (fun s be => s.append (Instr.setVar upn be.1.slot be.2)) s).code
        = s.code ++ l.map (fun be => Instr.setVar upn be.1.slot be.2) := by
  induction l with
  | nil => intro s; simp
  | cons b rest ih =>
    intro s
    simp [List.foldl_cons, ih, append_code]

theorem foldl_setVar_cells (upn : Nat) (l : List (Bind × Expr)) :
    ∀ s : CompState,
      (l.foldl (fun s be => s.append (Instr.setVar upn be.1.slot be.2)) s).cells
        = s.cells := by
  induction l with
  | nil => intro s; simp
  | cons b rest ih =>
    intro s
    rw [List.foldl_cons, ih]
    rfl

theorem compileAssign_post {c : Comp} {s : CompState} {tok : AssignTok}
    {names : List String} {rhs : List Expr} {c' : Comp} {s' : CompState}
    (h : compileAssign c s tok names rhs = .ok (c', s')) :
    SameShape c c' ∧ ExtendsBal s s' ∧ s'.cells = s.cells := by
  simp only [compileAssign] at h
  split at h
  · cases h
  · injection h with h2
    rw [Prod.mk.injEq] at h2
    obtain ⟨h3, h4⟩ := h2
    refine ⟨?_, ?_, ?_⟩
    · rw [← h3]
      split
      · exact sameShape_addBinds c _
      · exact sameShape_rfl c
    · rw [← h4]
      exact extendsBal_append rfl rfl
    · rw [← h4]
      rfl

theorem compileDeclVar_post {c : Comp} {s : CompState} {ns : List String}
    {c' : Comp} {s' : CompState}
    (h : compileDeclVar c s ns = .ok (c', s')) :
    SameShape c c' ∧ ExtendsBal s s' ∧ s'.cells = s.cells := by
  simp only [compileDeclVar] at h
  injection h with h2
  rw [Prod.mk.injEq] at h2
  obtain ⟨h3, h4⟩ := h2
  exact ⟨h3 ▸ sameShape_addBinds c _, h4 ▸ extendsBal_append rfl rfl,
    h4 ▸ rfl⟩

theorem compileDeclFunc_post {c : Comp} {s : CompState} {n : String}
    {c' : Comp} {s' : CompState}
    (h : compileDeclFunc c s n = .ok (c', s')) :
    SameShape c c' ∧ ExtendsBal s s' ∧ s'.cells = s.cells := by
  simp only [compileDeclFunc] at h
  injection h with h2
  rw [Prod.mk.injEq] at h2
  obtain ⟨h3, h4⟩ := h2
  exact ⟨h3 ▸ sameShape_addBinds c _, h4 ▸ extendsBal_append rfl rfl,
    h4 ▸ rfl⟩

theorem compileDeclConst_post {c : Comp} {s : CompState} {n : String}
    {c' : Comp} {s' : CompState}
    (h : compileDeclConst c s n = .ok (c', s')) :
    SameShape c c' ∧ ExtendsBal s s' ∧ s'.cells = s.cells := by
  simp only [compileDeclConst] at h
  injection h with h2
  rw [Prod.mk.injEq] at h2
  obtain ⟨h3, h4⟩ := h2
  exact ⟨h3 ▸ sameShape_addCDecl c _, h4 ▸ extendsBal_rfl s, h4 ▸ rfl⟩

theorem compileBreak_post {c : Comp} {s : CompState} {lab : Option String}
    {s2 : CompState} (h : compileBreak c s lab = .ok s2) :
    ExtendsBal s s2 ∧ s2.cells = s.cells := by
  simp only [compileBreak] at h
  split at h
  · injection h with h2
    rw [← h2]
    exact ⟨extendsBal_append rfl rfl, rfl⟩
  · split at h <;> cases h

theorem compileContinue_post {c : Comp} {s : CompState}
    {lab : Option String} {s2 : CompState}
    (h : compileContinue c s lab = .ok s2) :
    ExtendsBal s s2 ∧ s2.cells = s.cells := by
  simp only [compileContinue] at h
  split at h
  · injection h with h2
    rw [← h2]
    exact ⟨extendsBal_append rfl rfl, rfl⟩
  · split at h <;> cases h

theorem compileDefer_post {c : Comp} {s : CompState} {f : Expr}
    {args : List Expr} {ell : Bool} {c' : Comp} {s' : CompState}
    (h : compileDefer c s f args ell = .ok (c', s')) :
    c' = c ∧ ExtendsBal s s' ∧ s'.cells = s.cells := by
  simp only [compileDefer] at h
  split at h
  · cases h
  · injection h with h2
    rw [Prod.mk.injEq] at h2
    obtain ⟨h3, h4⟩ := h2
    refine ⟨h3.symm, ?_, ?_⟩
    · rw [← h4]
      exact extendsBal_code_right rfl (extendsBal_append rfl rfl)
    · rw [← h4]
      rfl

theorem compileGo_post {c : Comp} {s : CompState} {f : Expr}
    {args : List Expr} {c' : Comp} {s' : CompState}
    (h : compileGo c s f args = .ok (c', s')) :
    c' = c ∧ ExtendsBal s s' ∧ s'.cells = s.cells := by
  simp only [compileGo] at h
  split at h
  · cases h
  · injection h with h2
    rw [Prod.mk.injEq] at h2
    obtain ⟨h3, h4⟩ := h2
    exact ⟨h3.symm, h4 ▸ extendsBal_append rfl rfl, h4 ▸ rfl⟩

theorem returnMultiValues_post {c : Comp} {s : CompState}
    {binds : List Bind} {upn : Nat} {exprs : List Expr} {c' : Comp}
    {s' : CompState}
    (h : returnMultiValues c s binds upn exprs = .ok (c', s')) :
    c' = c ∧ ExtendsBal s s' ∧ s'.cells = s.cells := by
  simp only [returnMultiValues] at h
  split at h
  · split at h
    · cases h
    · split at h
      · split at h
        · cases h
        · split at h
          · cases h
          · injection h with h2
            rw [Prod.mk.injEq] at h2
            obtain ⟨h3, h4⟩ := h2
            exact ⟨h3.symm, h4 ▸ extendsBal_append rfl rfl, h4 ▸ rfl⟩
      · cases h
  · cases h

theorem compileReturn_post {c : Comp} {s : CompState} {exprs : List Expr}
    {c' : Comp} {s' : CompState}
    (h : compileReturn c s exprs = .ok (c', s')) :
    c' = c ∧ ExtendsBal s s' ∧ s'.cells = s.cells := by
  simp only [compileReturn] at h
  split at h
  · cases h
  · split at h
    · split at h
      · cases h
      · rename_i cinfo upn heq hlen hbad
        injection h with h2
        rw [Prod.mk.injEq] at h2
        obtain ⟨h3, h4⟩ := h2
        refine ⟨h3.symm, ?_, ?_⟩
        · rw [← h4]
          refine ⟨(cinfo.results.zip exprs).map
              (fun be => Instr.setVar upn be.1.slot be.2) ++
              [Instr.returnSignal], ?_,
            (balanced_map_setVar upn (cinfo.results.zip exprs)).append
              (balanced_single rfl rfl)⟩
          rw [append_code, foldl_setVar_code]
          simp
        · rw [← h4]
          show ((CompState.append _ _).cells) = s.cells
          rw [show (CompState.append ((cinfo.results.zip exprs).foldl
              (fun s be => s.append (Instr.setVar upn be.1.slot be.2)) s)
              Instr.returnSignal).cells = ((cinfo.results.zip exprs).foldl
              (fun s be => s.append (Instr.setVar upn be.1.slot be.2)) s).cells
            from rfl]
          exact foldl_setVar_cells upn (cinfo.results.zip exprs) s
    · split at h
      · split at h
        · cases h
        · exact returnMultiValues_post h
      · split at h
        · split at h
          · cases h
          · injection h with h2
            rw [Prod.mk.injEq] at h2
            obtain ⟨h3, h4⟩ := h2
            exact ⟨h3.symm, h4 ▸ extendsBal_append rfl rfl, h4 ▸ rfl⟩
        · cases h

theorem exceptBind_ok {ε α β : Type} {x : Except ε α} {f : α → Except ε β}
    {b : β} : (x >>= f) = .ok b ↔ ∃ a, x = .ok a ∧ f a = .ok b := by
  cases x <;> simp [Bind.bind, Except.bind]

theorem exceptPure_ok {ε α : Type} {a b : α} :
    (pure a : Except ε α) = .ok b ↔ a = b := by
  simp [Pure.pure, Except.pure]

theorem sameShape_cons_ex {f : Frame} {c c3 : Comp}
    (h : SameShape (f :: c) c3) : ∃ f3, c3 = f3 :: c := by
  cases c3 with
  | nil => simpa using h.1
  | cons f3 r =>
    refine ⟨f3, ?_⟩
    have := h.2
    simp at this
    rw [this]

theorem optExprSizeOf_pos (o : Option Expr) : 0 < sizeOf o := by
  cases o <;> simp_arith

theorem exprSizeOf_pos (e : Expr) : 0 < sizeOf e := by
  cases e <;> simp_arith

/-- A compile step only grows the cell store, and it never overwrites a
cell that existed before it started (it patches only cells it allocated
itself). -/
def CellsLe (s s' : CompState) : Prop :=
  s.cells.length ≤ s'.cells.length ∧
    ∀ i, i < s.cells.length → s'.cells[i]? = s.cells[i]?

theorem cellsLe_rfl (s : CompState) : CellsLe s s :=
  ⟨le_rfl, fun _ _ => rfl⟩

theorem cellsLe_of_eq {s s' : CompState} (h : s'.cells = s.cells) :
    CellsLe s s' :=
  ⟨by rw [h], fun i _ => by rw [h]⟩

theorem cellsLe_trans {a b c : CompState} (h1 : CellsLe a b)
    (h2 : CellsLe b c) : CellsLe a c :=
  ⟨h1.1.trans h2.1, fun i hi => by
    rw [h2.2 i (lt_of_lt_of_le hi h1.1), h1.2 i hi]⟩

theorem cellsLe_append_cells {s s2 : CompState} {ext : List Nat}
    (h : s2.cells = s.cells ++ ext) : CellsLe s s2 := by
  constructor
  · rw [h]; simp
  · intro i hi
    rw [h]
    exact List.getElem?_append_left hi

theorem cellsLe_setCell {s s2 : CompState} (h : CellsLe s s2) (i : Nat)
    (hge : s.cells.length ≤ i) (v : Nat) : CellsLe s (s2.setCell i v) := by
  constructor
  · simpa [CompState.setCell] using h.1
  · intro j hj
    simp only [CompState.setCell]
    rw [List.getElem?_set_ne (by omega)]
    exact h.2 j hj

theorem cellsLe_congr_right {s s2 s3 : CompState}
    (h : s3.cells = s2.cells) (h2 : CellsLe s s2) : CellsLe s s3 :=
  ⟨by rw [h]; exact h2.1, fun i hi => by rw [h]; exact h2.2 i hi⟩

theorem sameShape_setLoop (c : Comp) (li : LoopInfo) :
    SameShape c (c.setLoop li) := by
  cases c <;> simp [Comp.setLoop, SameShape]

theorem balanced_guard {a : List Instr} (k : Nat) (flag : Bool)
    (h : Balanced a) :
    Balanced ((if flag then [Instr.pushEnv k] else []) ++
      (a ++ (if flag then [Instr.popEnv] else []))) := by
  cases flag
  · simpa using h
  · simpa using @balanced_wrap a k h

theorem okPair_inv {c c' : Comp} {s s' : CompState}
    (h : (Except.ok (c, s) : Except String (Comp × CompState)) =
      .ok (c', s')) : c = c' ∧ s = s' := by
  injection h with h2
  rw [Prod.mk.injEq] at h2
  exact ⟨h2.1, h2.2⟩

end Gomacro
